import Mathlib

/-!
Verification development for the llamapackages dependency resolver and
package registry.

The definitions below are a shallow embedding of the Python sources
`src/llamapackage/src/llamapackage/dependency.py` and
`src/llamapackage/src/llamapackage/registry.py`.  Python dictionaries are
modelled as association lists (insertion-ordered, unique keys, exactly the
observable behaviour of `dict`), Python sets as lists used only through
membership, and raised exceptions as explicit error values returned
alongside the state that was current when the exception was raised (the
Python code mutates its dictionaries in place, so the state at raise time
is observable by the caller).
-/

namespace LlamaPackages

/-- Semantic version triple.  Models `semantic_version.Version` restricted to
the numeric `major.minor.patch` part, which is the only part the repository's
code reads (`dependency.py` accesses `.major` and `.minor` and relies on the
component-wise order). -/
structure Version where
  major : Nat
  minor : Nat
  patch : Nat
deriving DecidableEq

/-- Strict lexicographic order on versions, the order `semantic_version`
uses for plain release versions (compare `major`, then `minor`, then
`patch`, numerically). -/
def Version.ltb (a b : Version) : Bool :=
  decide (a.major < b.major) ||
    (decide (a.major = b.major) &&
      (decide (a.minor < b.minor) ||
        (decide (a.minor = b.minor) && decide (a.patch < b.patch))))

/-- Non-strict version order: strictly smaller or equal. -/
def Version.leb (a b : Version) : Bool :=
  a.ltb b || decide (a = b)

/-- Does the character list `sub` occur at the head of `hay`? -/
def chunkAt : List Char → List Char → Bool
  | [], _ => true
  | _ :: _, [] => false
  | a :: s, b :: h => a == b && chunkAt s h

/-- Does `sub` occur contiguously anywhere in `hay`?  (Helper for the
Python `in` operator on strings.) -/
def strContainsAux (sub : List Char) : List Char → Bool
  | [] => sub.isEmpty
  | c :: rest => chunkAt sub (c :: rest) || strContainsAux sub rest

/-- Python's `sub in hay` substring test. -/
def strContains (hay sub : String) : Bool :=
  strContainsAux sub.data hay.data

/-- Python's `str.lower()` (character-wise lowering suffices for the
ASCII names, descriptions and keywords this registry stores). -/
def strToLower (s : String) : String :=
  String.mk (s.data.map Char.toLower)

/-- Python's `str.startswith(p)`. -/
def strStarts (s p : String) : Bool :=
  chunkAt p.data s.data

/-- Python's slice `s[n:]`. -/
def strDrop (s : String) (n : Nat) : String :=
  String.mk (s.data.drop n)

/-- Parse a non-empty all-digit character run as a natural number. -/
def digitsToNat (l : List Char) : Option Nat :=
  if l.isEmpty then none
  else
    l.foldl
      (fun acc c =>
        match acc with
        | none => none
        | some n => if c.isDigit then some (n * 10 + (c.toNat - 48)) else none)
      (some 0)

/-- Split a character list on the dot character. -/
def splitDots : List Char → List (List Char)
  | [] => [[]]
  | c :: rest =>
    if c == '.' then [] :: splitDots rest
    else
      match splitDots rest with
      | [] => [[c]]
      | g :: gs => (c :: g) :: gs

/-- Models `semantic_version.Version.coerce` on plain numeric dotted input
(the only inputs the repository feeds it): one to three numeric components,
missing components padded with zero.  Inputs outside that shape are outside
the modelled domain and map to the zero version. -/
def coerce (s : String) : Version :=
  match (splitDots s.data).map digitsToNat with
  | [some a] => ⟨a, 0, 0⟩
  | [some a, some b] => ⟨a, b, 0⟩
  | [some a, some b, some c] => ⟨a, b, c⟩
  | _ => ⟨0, 0, 0⟩

/-- Models the strict `semantic_version.Version.parse`: exactly three
numeric dot-separated components. -/
def parseVersion (s : String) : Option Version :=
  match (splitDots s.data).map digitsToNat with
  | [some a, some b, some c] => some ⟨a, b, c⟩
  | _ => none

/-- Embedding of `DependencyResolver._satisfies`
(`dependency.py` lines 185–221): dispatch on the constraint's operator
text, in the source's test order (`==`, `>=`, `>`, `<=`, `<`, `~=`, bare
version means exact match). -/
def satisfies (version : Version) (constraint : String) : Bool :=
  if strStarts constraint "==" then
    version == coerce (strDrop constraint 2)
  else if strStarts constraint ">=" then
    (coerce (strDrop constraint 2)).leb version
  else if strStarts constraint ">" then
    (coerce (strDrop constraint 1)).ltb version
  else if strStarts constraint "<=" then
    version.leb (coerce (strDrop constraint 2))
  else if strStarts constraint "<" then
    version.ltb (coerce (strDrop constraint 1))
  else if strStarts constraint "~=" then
    let required := coerce (strDrop constraint 2)
    required.leb version &&
      version.major == required.major &&
      (decide (0 < version.major) || version.minor == required.minor)
  else
    version == coerce constraint

/-- Python `dict` assignment `m[k] = v` on an association list: an existing
key keeps its position and gets the new value, a fresh key is appended. -/
def dictSet {α : Type} (m : List (String × α)) (k : String) (v : α) :
    List (String × α) :=
  if m.any (fun e => e.1 == k) then
    m.map (fun e => if e.1 == k then (k, v) else e)
  else m ++ [(k, v)]

/-- Python `m.get(k)` / `m[k]` lookup on an association list. -/
def lookupD {α : Type} (m : List (String × α)) (k : String) : Option α :=
  match m.find? (fun e => e.1 == k) with
  | some e => some e.2
  | none => none

/-- Exception payload of `DependencyConflict` (`dependency.py` lines
19–32): the conflicting package and the requirer → constraint map recorded
for it. -/
structure DependencyConflict where
  package : String
  required_versions : List (String × String)
deriving DecidableEq

/-- The resolver's external collaborators: `_get_available_versions`
(registry / PyPI query for the published versions of a package, with its
internal error handling already folded into the returned list) and
`_get_dependencies` (the dependency map of one package version).  Both are
network reads in the source (`dependency.py` lines 223–293) and enter the
resolver only through these two call sites. -/
structure Repo where
  available : String → List Version
  deps : String → Version → List (String × String)

/-- The mutable state `DependencyResolver._resolve_package` threads through
its recursion: the four dictionaries/sets the Python code passes by
reference and mutates in place (`required_versions`, `installed`,
`to_install`, `visited`).  `installed` is caller-owned input; carrying it in
the state makes the frame property (the resolver never writes it)
expressible. -/
structure RState where
  required_versions : List (String × List (String × String))
  installed : List (String × String)
  to_install : List (String × Version)
  visited : List String
deriving DecidableEq

/-- Python `required_versions.setdefault(pkg, \x7b\x7d)[requirer] = constraint`. -/
def rvSet (rv : List (String × List (String × String)))
    (pkg requirer constraint : String) :
    List (String × List (String × String)) :=
  if rv.any (fun e => e.1 == pkg) then
    rv.map (fun e => if e.1 == pkg then (pkg, dictSet e.2 requirer constraint) else e)
  else rv ++ [(pkg, [(requirer, constraint)])]

/-- Python's builtin `max` over a non-empty list (first maximal element
kept, replaced only by a strictly larger one). -/
def listMax : Version → List Version → Version
  | acc, [] => acc
  | acc, v :: rest => listMax (if acc.ltb v then v else acc) rest

/-- The versions of `package` known to the registry that satisfy every
recorded constraint — the `valid_versions` list built inside
`_get_best_version` (`dependency.py` lines 174–177). -/
def validVersions (repo : Repo) (package : String)
    (constraints : List (String × String)) : List Version :=
  (repo.available package).filter
    (fun v => constraints.all (fun c => satisfies v c.2))

/-- Embedding of `DependencyResolver._get_best_version` (`dependency.py`
lines 151–183): `None` for an empty constraint map, no known versions, or
no version satisfying all constraints; otherwise the maximum satisfying
version. -/
def getBestVersion (repo : Repo) (package : String)
    (constraints : List (String × String)) : Option Version :=
  if constraints.isEmpty then none
  else
    let versions := repo.available package
    if versions.isEmpty then none
    else
      match versions.filter (fun v => constraints.all (fun c => satisfies v c.2)) with
      | [] => none
      | v :: rest => some (listMax v rest)

/-- The `for dep, dep_constraint in deps.items(): self._resolve_package(...)`
loop shared by `resolve_dependencies` (lines 77–85) and `_resolve_package`
(lines 141–149): run the recursive step on each entry in order; a raised
`DependencyConflict` aborts the loop and propagates together with the
state current at raise time. -/
def resolveLoopAux
    (recur : String → String → RState → RState × Option DependencyConflict) :
    List (String × String) → RState → RState × Option DependencyConflict
  | [], st => (st, none)
  | d :: rest, st =>
    match recur d.1 d.2 st with
    | (st1, some c) => (st1, some c)
    | (st1, none) => resolveLoopAux recur rest st1

/-- One unfolding of `DependencyResolver._resolve_package` (`dependency.py`
lines 89–149), with `recur` standing for the recursive call: return if
already visited; mark visited; return if the installed version satisfies
the constraint; pick the best version or raise `DependencyConflict`;
record the choice in `to_install`; record the chosen version's
dependencies in `required_versions`; recurse over them. -/
def resolveStep (repo : Repo)
    (recur : String → String → RState → RState × Option DependencyConflict)
    (package version_constraint : String) (st : RState) :
    RState × Option DependencyConflict :=
  if st.visited.contains package then (st, none)
  else
    if (match lookupD st.installed package with
        | some iv => satisfies (coerce iv) version_constraint
        | none => false) then
      ({ st with visited := st.visited ++ [package] }, none)
    else
      match getBestVersion repo package ((lookupD st.required_versions package).getD []) with
      | none =>
        ({ st with visited := st.visited ++ [package] },
         some ⟨package, (lookupD st.required_versions package).getD []⟩)
      | some best =>
        resolveLoopAux recur (repo.deps package best)
          { st with
            visited := st.visited ++ [package],
            to_install := dictSet st.to_install package best,
            required_versions :=
              (repo.deps package best).foldl
                (fun rv d => rvSet rv d.1 package d.2) st.required_versions }

/-- `DependencyResolver._resolve_package`, made total by a recursion-depth
budget `fuel` (the Python code terminates because `visited` grows inside a
finite package universe; an exhausted budget returns the state unchanged,
which no theorem below relies on). -/
def resolvePackage (repo : Repo) :
    Nat → String → String → RState → RState × Option DependencyConflict
  | 0 => fun _ _ st => (st, none)
  | fuel + 1 => resolveStep repo (resolvePackage repo fuel)

/-- Embedding of `DependencyResolver.resolve_dependencies` (`dependency.py`
lines 46–87) with `installed` supplied by the caller: seed
`required_versions[pkg]["root"]` from the root requirements, then resolve
each root in order.  Returns the final resolver state (whose `to_install`
field is the Python return value) together with the raised conflict, if
any. -/
def resolve_dependencies (repo : Repo) (fuel : Nat)
    (dependencies installed : List (String × String)) :
    RState × Option DependencyConflict :=
  let rv := dependencies.foldl (fun rv d => rvSet rv d.1 "root" d.2) []
  let st : RState := ⟨rv, installed, [], []⟩
  resolveLoopAux (resolvePackage repo fuel) dependencies st

/-- One published version of a package (`registry.py` lines 27–41).  The
fields the registry's logic reads are the version string, the dependency
map and the download locator; the upload timestamp (wall clock) and the
free-form metadata/hash fields carry no logic and are outside the model. -/
structure PackageVersion where
  version : String
  dependencies : List (String × String)
  download_url : Option String
deriving DecidableEq

/-- A package record (`registry.py` lines 44–80): name, version map keyed
by version string, and the descriptive metadata `search_packages` reads
(description and keywords; author/license/homepage fields carry no
logic). -/
structure Package where
  name : String
  versions : List (String × PackageVersion)
  description : Option String
  keywords : List String
deriving DecidableEq

/-- The in-memory state of a `PackageRegistry` (`registry.py` lines
83–106) together with the artifact store it mutates through
`Storage.upload_package`: the `packages` map, the `_loaded` flag, and the
list of artifacts uploaded so far (name, version pairs). -/
structure RegState where
  packages : List (String × Package)
  loaded : Bool
  uploads : List (String × String)
deriving DecidableEq

/-- Error taxonomy of the registry operations, one constructor per raise
site: `storageFailure` for an exception re-raised out of `load`,
`invalidToken` / `unauthorized` / `invalidVersion` / `versionExists` for
the four `ValueError`s of `publish_package` (`registry.py` lines 205–226;
the "Version ... already exists" `ValueError` is the spec's
`VersionExists`). -/
inductive RegError where
  | storageFailure (msg : String)
  | invalidToken
  | unauthorized
  | invalidVersion (v : String)
  | versionExists (v : String)
deriving DecidableEq

/-- Embedding of `PackageRegistry.load` (`registry.py` lines 108–121).
`idx` is the Storage collaborator's `get_index()` outcome: an exception or
an index snapshot (an absent/empty snapshot is the empty list).  A reread
is skipped once `_loaded` is set; on a storage exception the error is
logged **and re-raised** (`raise` on line 121), leaving the state
untouched. -/
def regLoad (idx : Except String (List (String × Package))) (st : RegState) :
    Except String RegState :=
  if st.loaded then .ok st
  else
    match idx with
    | .error e => .error e
    | .ok index =>
      .ok { st with
            packages := index.foldl (fun m e => dictSet m e.1 e.2) st.packages,
            loaded := true }

/-- Embedding of `PackageRegistry.get_package` (`registry.py` lines
142–152): load, then look the name up. -/
def get_package (idx : Except String (List (String × Package)))
    (st : RegState) (name : String) :
    Except String (Option Package × RegState) :=
  match regLoad idx st with
  | .error e => .error e
  | .ok st1 => .ok (lookupD st1.packages name, st1)

/-- The loop body of `PackageRegistry.search_packages` (`registry.py`
lines 163–180) over an already-loaded package map: lower the query once,
keep a package when the query occurs in the entry's name, else in a
non-empty description, else in some keyword (the `continue` after each
match makes the three tests a short-circuit disjunction and adds each
entry at most once). -/
def searchPure (packages : List (String × Package)) (query : String) :
    List Package :=
  let q := strToLower query
  (packages.filter
    (fun e =>
      strContains (strToLower e.1) q ||
        (match e.2.description with
         | some d => !(d == "") && strContains (strToLower d) q
         | none => false) ||
        e.2.keywords.any (fun k => strContains (strToLower k) q))).map
    (fun e => e.2)

/-- Embedding of `PackageRegistry.search_packages` (`registry.py` lines
154–180): load, then run the matching loop. -/
def search_packages (idx : Except String (List (String × Package)))
    (st : RegState) (query : String) :
    Except String (List Package × RegState) :=
  match regLoad idx st with
  | .error e => .error e
  | .ok st1 => .ok (searchPure st1.packages query, st1)

/-- Embedding of `PackageRegistry.publish_package` (`registry.py` lines
182–246).  `tokenOk` and `canPub` are the Authentication/Authorization
collaborators' verdicts; `deps` is the `dependencies` entry of the
supplied metadata.  Mirrors the source's order: load, token check,
authorization check, version validation, get-or-create package, reject an
existing version, upload the artifact, build the `PackageVersion`, add it
to the package, store the package.  Returns the outcome together with the
registry state current when the call returned or raised. -/
def publish_package (idx : Except String (List (String × Package)))
    (tokenOk canPub : Bool) (st : RegState) (name version : String)
    (deps : List (String × String)) :
    Except RegError PackageVersion × RegState :=
  match regLoad idx st with
  | .error e => (.error (.storageFailure e), st)
  | .ok st1 =>
    if !tokenOk then (.error .invalidToken, st1)
    else if !canPub then (.error .unauthorized, st1)
    else
      match parseVersion version with
      | none => (.error (.invalidVersion version), st1)
      | some _ =>
        let package :=
          match lookupD st1.packages name with
          | some p => p
          | none => { name := name, versions := [], description := none, keywords := [] }
        if package.versions.any (fun e => e.1 == version) then
          (.error (.versionExists version), st1)
        else
          let file_url := name ++ "/" ++ version
          let st2 : RegState := { st1 with uploads := st1.uploads ++ [(name, version)] }
          let pv : PackageVersion :=
            { version := version, dependencies := deps, download_url := some file_url }
          let package1 := { package with versions := dictSet package.versions version pv }
          let st3 : RegState := { st2 with packages := dictSet st2.packages name package1 }
          (.ok pv, st3)

/-- The spec's characterization of a search hit (spec §4.2): the
lower-cased query occurs in the package's name, in its description, or in
one of its keywords, all compared case-insensitively. -/
def specMatch (q : String) (p : Package) : Prop :=
  strContains (strToLower p.name) (strToLower q) = true ∨
  (∃ d, p.description = some d ∧ strContains (strToLower d) (strToLower q) = true) ∨
  (∃ k, k ∈ p.keywords ∧ strContains (strToLower k) (strToLower q) = true)

/-! Concrete registries and states used by the counterexamples and
witnesses below. -/

/-- A concrete registry with two roots `A` and `B` that both transitively
require `X`, under the mutually unsatisfiable constraints `==1.0.0`
(from `A`) and `==2.0.0` (from `B`). -/
def repoTwoRoots : Repo where
  available p :=
    if p == "X" then [⟨1, 0, 0⟩, ⟨2, 0, 0⟩]
    else if p == "A" || p == "B" then [⟨1, 0, 0⟩]
    else []
  deps p _ :=
    if p == "A" then [("X", "==1.0.0")]
    else if p == "B" then [("X", "==2.0.0")]
    else []

/-- A concrete registry with a single root `R` depending on `B` and on
`X==1.0.0`, where `B` depends on `X==2.0.0`; the dependency order of `R`
records both constraints on `X` before `X` is first visited. -/
def repoChain : Repo where
  available p :=
    if p == "X" then [⟨1, 0, 0⟩, ⟨2, 0, 0⟩]
    else if p == "R" || p == "B" then [⟨1, 0, 0⟩]
    else []
  deps p _ :=
    if p == "R" then [("B", ">=1.0.0"), ("X", "==1.0.0")]
    else if p == "B" then [("X", "==2.0.0")]
    else []

/-- A registry knowing versions 1.0.0 and 2.0.0 of package `P` (and no
dependencies). -/
def repoBest : Repo where
  available p := if p == "P" then [⟨1, 0, 0⟩, ⟨2, 0, 0⟩] else []
  deps _ _ := []

/-- A resolver state that records one unsatisfiable root constraint on a
package the registry does not know. -/
def stConflict : RState := ⟨[("ghost", [("root", "==3.0.0")])], [], [], []⟩

/-- A resolver state whose environment already has `Q` 1.0.0 installed. -/
def stInstalled : RState := ⟨[], [("Q", "1.0.0")], [], []⟩

/-- A resolver state that has already visited `Q` without scheduling it. -/
def stVisited : RState := ⟨[], [], [], ["Q"]⟩

/-- A registry that has never loaded and holds nothing. -/
def regEmpty : RegState := ⟨[], false, []⟩

/-- A registry state that has not loaded yet but holds one artifact. -/
def regUnloaded : RegState := ⟨[], false, [("a", "1.0.0")]⟩

/-- A published version record for `foo` 1.0.0. -/
def pvOne : PackageVersion := ⟨"1.0.0", [], some "foo/1.0.0"⟩

/-- The package record for `foo` with its single published version. -/
def pkgFoo : Package := ⟨"foo", [("1.0.0", pvOne)], none, []⟩

/-- A loaded registry state holding `foo` 1.0.0 with its artifact. -/
def regLoaded : RegState := ⟨[("foo", pkgFoo)], true, [("foo", "1.0.0")]⟩

/-- A text-processing package whose name contains `llama`. -/
def pkgLlama : Package := ⟨"llamatext", [], some "Text processing", ["nlp"]⟩

/-- An unrelated package. -/
def pkgOther : Package := ⟨"unrelated", [], some "something else", []⟩

/-- A loaded registry holding `llamatext` and `unrelated`. -/
def regTwo : RegState :=
  ⟨[("llamatext", pkgLlama), ("unrelated", pkgOther)], true, []⟩

/-! Order lemmas for the version triple. -/

theorem Version.ltb_leb {a b : Version} (h : a.ltb b = true) : a.leb b = true := by
  simp [Version.leb, h]

theorem Version.leb_refl (a : Version) : a.leb a = true := by
  simp [Version.leb]

theorem Version.leb_of_not_ltb {a b : Version} (h : a.ltb b = false) :
    b.leb a = true := by
  obtain ⟨a1, a2, a3⟩ := a
  obtain ⟨b1, b2, b3⟩ := b
  simp only [Version.ltb, Bool.or_eq_false_iff, Bool.and_eq_false_iff,
    decide_eq_false_iff_not, not_lt] at h
  simp only [Version.leb, Version.ltb, Bool.or_eq_true, Bool.and_eq_true,
    decide_eq_true_eq, Version.mk.injEq]
  omega

theorem Version.leb_trans {a b c : Version} (h1 : a.leb b = true)
    (h2 : b.leb c = true) : a.leb c = true := by
  obtain ⟨a1, a2, a3⟩ := a
  obtain ⟨b1, b2, b3⟩ := b
  obtain ⟨c1, c2, c3⟩ := c
  simp only [Version.leb, Version.ltb, Bool.or_eq_true, Bool.and_eq_true,
    decide_eq_true_eq, Version.mk.injEq] at h1 h2 ⊢
  omega

/-- The constraint tests of `_satisfies` dispatch on a closed constraint
string, so a tilde constraint reduces to the source's three-clause
conjunction with the version still free. -/
theorem satisfies_tilde_023 (v : Version) :
    satisfies v "~=0.2.3"
      = ((Version.leb ⟨0, 2, 3⟩ v && (v.major == 0))
          && (decide (0 < v.major) || v.minor == 2)) := rfl

/-- C2 (corrected): the compatible-release check of `_satisfies`
(`dependency.py` lines 211–217).  `1.2.3` and `1.2.9` satisfy `~=1.2.3`;
contrary to the claim, `1.3.0` also satisfies `~=1.2.3`, because for a
positive major the code only requires the majors to agree (`version.major
> 0 or version.minor == required.minor`); `~=0.2.3` is satisfied exactly by
the versions `0.2.x` with `x ≥ 3`, and in particular not by `0.3.0`. -/
theorem satisfies_compatible_release :
    satisfies ⟨1, 2, 3⟩ "~=1.2.3" = true
    ∧ satisfies ⟨1, 2, 9⟩ "~=1.2.3" = true
    ∧ satisfies ⟨1, 3, 0⟩ "~=1.2.3" = true
    ∧ (∀ v : Version,
        satisfies v "~=0.2.3" = true ↔ v.major = 0 ∧ v.minor = 2 ∧ 3 ≤ v.patch)
    ∧ satisfies ⟨0, 3, 0⟩ "~=0.2.3" = false := by
  refine ⟨by decide, by decide, by decide, ?_, by decide⟩
  intro v
  obtain ⟨ma, mi, pa⟩ := v
  rw [satisfies_tilde_023]
  simp only [Version.leb, Version.ltb, Bool.and_eq_true, Bool.or_eq_true,
    decide_eq_true_eq, beq_iff_eq, Version.mk.injEq]
  omega

/-- C2 counterexample: the claim asserts `1.3.0` does not satisfy
`~=1.2.3`, but `_satisfies` accepts it (`1.3.0 ≥ 1.2.3`, same major, and
the major is positive, which the code's disjunction accepts regardless of
the minor). -/
theorem satisfies_tilde_130_cex : satisfies ⟨1, 3, 0⟩ "~=1.2.3" = true := by decide

/-- The empty character run occurs in every character list. -/
theorem strContainsAux_nil (l : List Char) : strContainsAux [] l = true := by
  induction l with
  | nil => rfl
  | cons c t ih => simp [strContainsAux, chunkAt]

/-- A string whose data is empty occurs in every string (Python's
`"" in s`). -/
theorem strContains_of_nil {sub : String} (hs : sub.data = []) (hay : String) :
    strContains hay sub = true := by
  unfold strContains
  rw [hs]
  exact strContainsAux_nil hay.data

/-- Only the empty string occurs in the empty string. -/
theorem strContains_empty_hay {sub : String}
    (h : strContains "" sub = true) : sub.data = [] := by
  unfold strContains at h
  cases hd : sub.data with
  | nil => rfl
  | cons c t =>
    rw [show ("" : String).data = [] from rfl, hd] at h
    simp [strContainsAux, List.isEmpty] at h

/-- C10 (confirmed): searching with the empty query keeps every entry of
the package map, in order — the empty query is a substring of every
lower-cased name, so the first test of the loop accepts each entry. -/
theorem search_empty_query_returns_all (packages : List (String × Package)) :
    searchPure packages "" = packages.map Prod.snd := by
  unfold searchPure
  have hfil :
      packages.filter
        (fun e =>
          strContains (strToLower e.1) (strToLower "") ||
            (match e.2.description with
             | some d => !(d == "") && strContains (strToLower d) (strToLower "")
             | none => false) ||
            e.2.keywords.any (fun k => strContains (strToLower k) (strToLower "")))
        = packages := by
    rw [List.filter_eq_self]
    intro e _
    have h1 : strContains (strToLower e.1) (strToLower "") = true :=
      strContains_of_nil rfl _
    simp [h1]
  dsimp only
  rw [hfil]

/-- C3 counterexample: the claim says a failing index read leaves `load()`
silent; at this concrete failing Storage collaborator the embedded
`load` re-raises the storage error (`registry.py` line 121 ends the
handler with `raise`). -/
theorem load_failure_raises_cex :
    regLoad (Except.error "disk failure") regEmpty
      = Except.error "disk failure" := rfl

/-- C3 (corrected): on a Storage failure while reading the index snapshot,
`load` logs and re-raises, leaving the state untouched (`_loaded` stays
unset and the map stays as it was), so a subsequent `get_package` or
`search_packages` re-attempts the load and fails with the same error
instead of behaving as an empty registry. -/
theorem load_failure_fatal (e : String) (st : RegState) (name query : String)
    (h : st.loaded = false) :
    regLoad (Except.error e) st = Except.error e
    ∧ get_package (Except.error e) st name = Except.error e
    ∧ search_packages (Except.error e) st query = Except.error e := by
  unfold get_package search_packages regLoad
  simp [h]

/-- C3 witness: the corrected behaviour at a concrete never-loaded
registry, query and name. -/
theorem load_failure_fatal_witness :
    regLoad (Except.error "disk failure") ⟨[], false, [("a", "1.0.0")]⟩
      = Except.error "disk failure"
    ∧ get_package (Except.error "disk failure") ⟨[], false, [("a", "1.0.0")]⟩ "llamatext"
      = Except.error "disk failure"
    ∧ search_packages (Except.error "disk failure") ⟨[], false, [("a", "1.0.0")]⟩ "llama"
      = Except.error "disk failure" :=
  load_failure_fatal "disk failure" ⟨[], false, [("a", "1.0.0")]⟩ "llamatext" "llama" rfl

/-- C6 (confirmed): publishing a (name, version) pair that the loaded
registry already holds fails with the version-exists error
(`registry.py` line 226) and returns the registry state exactly as it was:
the package map and the upload log are both untouched, because the raise
happens before `Storage.upload_package` and before `add_package`. -/
theorem publish_duplicate_version_rejected
    (idx : Except String (List (String × Package))) (st : RegState)
    (name version : String) (deps : List (String × String)) (p : Package)
    (v0 : Version)
    (hl : st.loaded = true)
    (hp : lookupD st.packages name = some p)
    (hv : p.versions.any (fun e => e.1 == version) = true)
    (hparse : parseVersion version = some v0) :
    publish_package idx true true st name version deps
      = (Except.error (RegError.versionExists version), st) := by
  unfold publish_package regLoad
  simp [hl, hp, hv, hparse]

/-- C6 witness: republishing `foo` 1.0.0 into the concrete loaded registry
fails with the version-exists error and returns the state unchanged. -/
theorem publish_duplicate_version_rejected_witness :
    publish_package (Except.ok []) true true regLoaded "foo" "1.0.0" []
      = (Except.error (RegError.versionExists "1.0.0"), regLoaded) :=
  publish_duplicate_version_rejected (Except.ok []) regLoaded "foo" "1.0.0" []
    pkgFoo ⟨1, 0, 0⟩ rfl (by decide) (by decide) (by decide)


set_option maxHeartbeats 2000000 in
/-- C1 counterexample: with two separate roots `A` and `B` transitively
requiring `X` as `==1.0.0` and `==2.0.0`, the resolution run raises no
`DependencyConflict` at all — `X` is resolved (and marked visited) while
only `A`'s constraint is recorded, so `B`'s later conflicting constraint is
never re-checked and `X` is silently pinned to 1.0.0. -/
theorem two_roots_conflict_not_raised_cex :
    (resolve_dependencies repoTwoRoots 10 [("A", ">=1.0.0"), ("B", ">=1.0.0")] []).2
        = none
    ∧ lookupD (resolve_dependencies repoTwoRoots 10
        [("A", ">=1.0.0"), ("B", ">=1.0.0")] []).1.to_install "X"
        = some ⟨1, 0, 0⟩ := by
  exact ⟨by decide, by decide⟩

set_option maxHeartbeats 2000000 in
/-- C1 (corrected): when both conflicting exact constraints on `X` are
recorded in `required_versions` before `X` is first visited — here the
single root `R` lists requirer `B` before `X` in its dependency map —
resolution raises `DependencyConflict` whose payload names `X` and carries
both requirers with their constraints. -/
theorem conflict_raised_when_constraints_precede_visit :
    (resolve_dependencies repoChain 10 [("R", ">=1.0.0")] []).2
      = some ⟨"X", [("R", "==1.0.0"), ("B", "==2.0.0")]⟩ := by decide

/-! Preservation machinery for the resolver: a state predicate closed under
the two in-place updates `_resolve_package` performs (marking a package
visited; additionally scheduling it and extending `required_versions`) is
an invariant of the whole recursion, conflict or not. -/

theorem loopAux_pres (P : RState → Prop)
    (recur : String → String → RState → RState × Option DependencyConflict)
    (hrec : ∀ p c st, P st → P (recur p c st).1) :
    ∀ deps st, P st → P (resolveLoopAux recur deps st).1 := by
  intro deps
  induction deps with
  | nil => intro st h; exact h
  | cons d rest ih =>
    intro st h
    have h1 := hrec d.1 d.2 st h
    rcases he : recur d.1 d.2 st with ⟨st1, oc⟩
    rw [he] at h1
    cases oc with
    | none =>
      have hE : resolveLoopAux recur (d :: rest) st = resolveLoopAux recur rest st1 := by
        conv_lhs => rw [resolveLoopAux]
        rw [he]
      rw [hE]
      exact ih st1 h1
    | some c =>
      have hE : resolveLoopAux recur (d :: rest) st = (st1, some c) := by
        conv_lhs => rw [resolveLoopAux]
        rw [he]
      rw [hE]
      exact h1

theorem resolvePackage_pres (repo : Repo) (P : RState → Prop)
    (hA : ∀ st p, st.visited.contains p = false → P st →
        P { st with visited := st.visited ++ [p] })
    (hB : ∀ st p v rv, st.visited.contains p = false → P st →
        P { st with visited := st.visited ++ [p],
                    to_install := dictSet st.to_install p v,
                    required_versions := rv }) :
    ∀ fuel p c st, P st → P (resolvePackage repo fuel p c st).1 := by
  intro fuel
  induction fuel with
  | zero => intro p c st h; exact h
  | succ n ih =>
    intro p c st h
    show P (resolveStep repo (resolvePackage repo n) p c st).1
    unfold resolveStep
    split
    · exact h
    next hv =>
      have hv' : st.visited.contains p = false := by
        simpa using hv
      split
      · exact hA st p hv' h
      · split
        · exact hA st p hv' h
        next best heq =>
          exact loopAux_pres P (resolvePackage repo n) ih (repo.deps p best) _
            (hB st p best _ hv' h)

/-- Every call of the recursive resolve step only appends to `visited`. -/
theorem resolvePackage_visited_ext (repo : Repo) (fuel : Nat) (p c : String)
    (st : RState) :
    ∃ l, (resolvePackage repo fuel p c st).1.visited = st.visited ++ l := by
  refine resolvePackage_pres repo (fun s => ∃ l, s.visited = st.visited ++ l)
    ?_ ?_ fuel p c st ⟨[], by simp⟩
  · rintro s q hq ⟨l, hl⟩
    exact ⟨l ++ [q], by simp [hl]⟩
  · rintro s q v rv hq ⟨l, hl⟩
    exact ⟨l ++ [q], by simp [hl]⟩

/-- The resolve loop over a dependency list only appends to `visited`. -/
theorem loopAux_visited_ext (repo : Repo) (fuel : Nat)
    (deps : List (String × String)) (st : RState) :
    ∃ l, (resolveLoopAux (resolvePackage repo fuel) deps st).1.visited
      = st.visited ++ l := by
  refine loopAux_pres (fun s => ∃ l, s.visited = st.visited ++ l)
    (resolvePackage repo fuel) ?_ deps st ⟨[], by simp⟩
  rintro p c s ⟨l, hl⟩
  obtain ⟨l2, h2⟩ := resolvePackage_visited_ext repo fuel p c s
  exact ⟨l ++ l2, by rw [h2, hl, List.append_assoc]⟩

/-- C8 (confirmed): within one resolution run the `visited` set only
grows — every recursive resolve step and every dependency loop returns a
state whose `visited` is the input `visited` with elements appended, never
removed and never reset, also on the path that raises a conflict (the
returned state is the state at raise time). -/
theorem visited_only_grows :
    (∀ repo fuel p c st, ∃ l,
        (resolvePackage repo fuel p c st).1.visited = st.visited ++ l)
    ∧ (∀ repo fuel deps st, ∃ l,
        (resolveLoopAux (resolvePackage repo fuel) deps st).1.visited
          = st.visited ++ l) :=
  ⟨fun repo fuel p c st => resolvePackage_visited_ext repo fuel p c st,
   fun repo fuel deps st => loopAux_visited_ext repo fuel deps st⟩

/-- Appending to a list keeps an already-contained element contained. -/
theorem contains_append_tail (l : List String) (x q : String)
    (h : l.contains x = true) : (l ++ [q]).contains x = true := by
  rw [List.elem_iff] at h ⊢
  exact List.mem_append_left _ h

/-- Writing a key different from `k` into an association map does not
create a `k` entry. -/
theorem dictSet_any_other {α : Type} (m : List (String × α)) (p : String)
    (v : α) (k : String) (hpk : (p == k) = false)
    (h : m.any (fun e => e.1 == k) = false) :
    (dictSet m p v).any (fun e => e.1 == k) = false := by
  unfold dictSet
  split
  · rw [List.any_map]
    rw [List.any_eq_false] at h ⊢
    intro e he
    have he2 := h e he
    by_cases hep : (e.1 == p) = true
    · simp [Function.comp, hep, hpk]
    · simp only [Bool.not_eq_true] at hep
      simp [Function.comp, hep, he2]
  · rw [List.any_append]
    simp [h, hpk]

/-- Once a package is in `visited` without being in `to_install`, no later
resolution work schedules it: any further recursive step keeps it visited
and keeps it out of `to_install` (a step only schedules its own package,
and only when that package was not yet visited). -/
theorem pkg_stays_unscheduled (pkg : String) (repo : Repo) :
    ∀ fuel q c st,
      st.visited.contains pkg = true
        ∧ st.to_install.any (fun e => e.1 == pkg) = false →
      (resolvePackage repo fuel q c st).1.visited.contains pkg = true
        ∧ (resolvePackage repo fuel q c st).1.to_install.any
            (fun e => e.1 == pkg) = false := by
  intro fuel q c st h
  refine resolvePackage_pres repo
    (fun s => s.visited.contains pkg = true
      ∧ s.to_install.any (fun e => e.1 == pkg) = false) ?_ ?_ fuel q c st h
  · rintro s w hw ⟨h1, h2⟩
    exact ⟨contains_append_tail s.visited pkg w h1, h2⟩
  · rintro s w v rv hw ⟨h1, h2⟩
    have hne : (w == pkg) = false := by
      cases hbe : (w == pkg) with
      | false => rfl
      | true =>
        have hwp : w = pkg := beq_iff_eq.mp hbe
        rw [hwp] at hw
        rw [hw] at h1
        simp at h1
    exact ⟨contains_append_tail s.visited pkg w h1,
      dictSet_any_other s.to_install w v pkg hne h2⟩

/-- C9 (confirmed): the resolver never writes the caller's `installed`
map — every recursive step, every dependency loop and the whole
`resolve_dependencies` run return it exactly as supplied, whether the run
returns or raises; the root `dependencies` map is consumed read-only (the
run's `required_versions` is seeded from a fresh map). -/
theorem resolver_inputs_not_mutated :
    (∀ repo fuel p c st,
        (resolvePackage repo fuel p c st).1.installed = st.installed)
    ∧ (∀ repo fuel deps st,
        (resolveLoopAux (resolvePackage repo fuel) deps st).1.installed
          = st.installed)
    ∧ (∀ repo fuel dependencies installed,
        (resolve_dependencies repo fuel dependencies installed).1.installed
          = installed) := by
  have hpkg : ∀ repo fuel p c (st : RState),
      (resolvePackage repo fuel p c st).1.installed = st.installed := by
    intro repo fuel p c st
    exact resolvePackage_pres repo (fun s => s.installed = st.installed)
      (fun s q hq h => h) (fun s q v rv hq h => h) fuel p c st rfl
  have hloop : ∀ repo fuel deps (st : RState),
      (resolveLoopAux (resolvePackage repo fuel) deps st).1.installed
        = st.installed := by
    intro repo fuel deps st
    exact loopAux_pres (fun s => s.installed = st.installed)
      (resolvePackage repo fuel)
      (fun p c s h => (hpkg repo fuel p c s).trans h) deps st rfl
  refine ⟨hpkg, hloop, ?_⟩
  intro repo fuel dependencies installed
  have h := hloop repo fuel dependencies
    ⟨dependencies.foldl (fun rv d => rvSet rv d.1 "root" d.2) [], installed, [], []⟩
  simpa [resolve_dependencies] using h

/-- C5 (confirmed): a package whose installed version satisfies the
constraint under which the resolver first encounters it never enters
`to_install`: (i) that first encounter — the call on a not-yet-visited
package present in `installed` with a satisfying version — returns
immediately, marking the package visited and leaving everything else
(in particular `to_install`) untouched; (ii) from then on the pair
(visited, unscheduled) is preserved by every further recursive step and
(iii) by every dependency loop, so the run's returned `to_install` map
never contains the package. -/
theorem installed_satisfying_never_scheduled (pkg : String) :
    (∀ repo fuel c st iv,
        st.visited.contains pkg = false →
        lookupD st.installed pkg = some iv →
        satisfies (coerce iv) c = true →
        resolvePackage repo (fuel + 1) pkg c st
          = ({ st with visited := st.visited ++ [pkg] }, none))
    ∧ (∀ repo fuel q c st,
        st.visited.contains pkg = true →
        st.to_install.any (fun e => e.1 == pkg) = false →
        (resolvePackage repo fuel q c st).1.visited.contains pkg = true
          ∧ (resolvePackage repo fuel q c st).1.to_install.any
              (fun e => e.1 == pkg) = false)
    ∧ (∀ repo fuel roots st,
        st.visited.contains pkg = true →
        st.to_install.any (fun e => e.1 == pkg) = false →
        (resolveLoopAux (resolvePackage repo fuel) roots st).1.visited.contains pkg
            = true
          ∧ (resolveLoopAux (resolvePackage repo fuel) roots st).1.to_install.any
              (fun e => e.1 == pkg) = false) := by
  refine ⟨?_, ?_, ?_⟩
  · intro repo fuel c st iv h1 h2 h3
    show resolveStep repo (resolvePackage repo fuel) pkg c st = _
    unfold resolveStep
    rw [h1, h2]
    simp [h3]
  · intro repo fuel q c st h1 h2
    exact pkg_stays_unscheduled pkg repo fuel q c st ⟨h1, h2⟩
  · intro repo fuel roots st h1 h2
    exact loopAux_pres
      (fun s => s.visited.contains pkg = true
        ∧ s.to_install.any (fun e => e.1 == pkg) = false)
      (resolvePackage repo fuel)
      (fun p c s hs => pkg_stays_unscheduled pkg repo fuel p c s hs)
      roots st ⟨h1, h2⟩

/-- C5 witness: concrete instances of the first-encounter return and of
both preservation clauses, around the installed package `Q` 1.0.0. -/
theorem installed_satisfying_never_scheduled_witness :
    resolvePackage repoTwoRoots 1 "Q" ">=1.0.0" stInstalled
        = ({ stInstalled with visited := ["Q"] }, none)
    ∧ ((resolvePackage repoTwoRoots 1 "A" ">=1.0.0" stVisited).1.visited.contains "Q"
          = true
        ∧ (resolvePackage repoTwoRoots 1 "A" ">=1.0.0" stVisited).1.to_install.any
            (fun e => e.1 == "Q") = false)
    ∧ ((resolveLoopAux (resolvePackage repoTwoRoots 1)
            [("A", ">=1.0.0")] stVisited).1.visited.contains "Q" = true
        ∧ (resolveLoopAux (resolvePackage repoTwoRoots 1)
            [("A", ">=1.0.0")] stVisited).1.to_install.any
            (fun e => e.1 == "Q") = false) := by
  refine ⟨(installed_satisfying_never_scheduled "Q").1 repoTwoRoots 0 ">=1.0.0"
      stInstalled "1.0.0" (by decide) (by decide) (by decide),
    (installed_satisfying_never_scheduled "Q").2.1 repoTwoRoots 1 "A" ">=1.0.0"
      stVisited (by decide) (by decide),
    (installed_satisfying_never_scheduled "Q").2.2 repoTwoRoots 1
      [("A", ">=1.0.0")] stVisited (by decide) (by decide)⟩

/-- Python's `max` starting from `acc` yields `acc` or a list element. -/
theorem listMax_mem (acc : Version) (l : List Version) :
    listMax acc l = acc ∨ listMax acc l ∈ l := by
  induction l generalizing acc with
  | nil => exact Or.inl rfl
  | cons w t ih =>
    rw [listMax]
    by_cases hc : acc.ltb w = true
    · rw [if_pos hc]
      rcases ih w with h | h
      · exact Or.inr (by rw [h]; exact List.mem_cons_self w t)
      · exact Or.inr (List.mem_cons_of_mem w h)
    · rw [if_neg hc]
      rcases ih acc with h | h
      · exact Or.inl h
      · exact Or.inr (List.mem_cons_of_mem w h)

/-- Python's `max` starting from `acc` dominates `acc` and every list
element. -/
theorem listMax_ge (acc : Version) (l : List Version) :
    acc.leb (listMax acc l) = true
    ∧ ∀ v ∈ l, v.leb (listMax acc l) = true := by
  induction l generalizing acc with
  | nil => exact ⟨Version.leb_refl acc, by simp⟩
  | cons w t ih =>
    rw [listMax]
    by_cases hc : acc.ltb w = true
    · rw [if_pos hc]
      obtain ⟨h1, h2⟩ := ih w
      refine ⟨Version.leb_trans (Version.ltb_leb hc) h1, ?_⟩
      intro v hv
      rcases List.mem_cons.mp hv with rfl | hvt
      · exact h1
      · exact h2 v hvt
    · rw [if_neg hc]
      obtain ⟨h1, h2⟩ := ih acc
      refine ⟨h1, ?_⟩
      intro v hv
      rcases List.mem_cons.mp hv with rfl | hvt
      · have hva : v.leb acc = true :=
          Version.leb_of_not_ltb (by simpa using hc)
        exact Version.leb_trans hva h1
      · exact h2 v hvt

/-- When `_get_best_version` returns a version, it is one of the valid
versions and dominates all of them. -/
theorem getBestVersion_spec (repo : Repo) (pkg : String)
    (constraints : List (String × String)) (b : Version)
    (hb : getBestVersion repo pkg constraints = some b) :
    b ∈ validVersions repo pkg constraints
    ∧ ∀ v ∈ validVersions repo pkg constraints, v.leb b = true := by
  unfold getBestVersion at hb
  by_cases hce : constraints.isEmpty = true
  · rw [if_pos hce] at hb
    exact absurd hb (by simp)
  · rw [if_neg hce] at hb
    by_cases hve : (repo.available pkg).isEmpty = true
    · rw [if_pos hve] at hb
      exact absurd hb (by simp)
    · rw [if_neg hve] at hb
      rcases hfil : validVersions repo pkg constraints with _ | ⟨v, rest⟩
      · unfold validVersions at hfil
        rw [hfil] at hb
        exact absurd hb (by simp)
      · have hfil2 := hfil
        unfold validVersions at hfil2
        rw [hfil2] at hb
        have hbv : b = listMax v rest := by
          simpa using hb.symm
        subst hbv
        obtain ⟨h1, h2⟩ := listMax_ge v rest
        refine ⟨?_, ?_⟩
        · rcases listMax_mem v rest with h | h
          · rw [h]; exact List.mem_cons_self v rest
          · exact List.mem_cons_of_mem v h
        · intro x hx
          rcases List.mem_cons.mp hx with rfl | hxt
          · exact h1
          · exact h2 x hxt

/-- With a non-empty constraint map, `_get_best_version` returns `None`
exactly when no known version satisfies all constraints (in particular
when the package has no known versions). -/
theorem getBestVersion_none_iff (repo : Repo) (pkg : String)
    (constraints : List (String × String)) (hne : constraints ≠ []) :
    getBestVersion repo pkg constraints = none
      ↔ validVersions repo pkg constraints = [] := by
  have hce : constraints.isEmpty = false := by
    simpa [List.isEmpty_iff] using hne
  unfold getBestVersion
  rw [hce]
  simp only [Bool.false_eq_true, if_false]
  by_cases hve : (repo.available pkg).isEmpty = true
  · rw [if_pos hve]
    have hav : repo.available pkg = [] := by
      simpa [List.isEmpty_iff] using hve
    unfold validVersions
    rw [hav]
    simp
  · rw [if_neg hve]
    rcases hfil : validVersions repo pkg constraints with _ | ⟨v, rest⟩
    · have hfil2 := hfil
      unfold validVersions at hfil2
      rw [hfil2]
      simp
    · have hfil2 := hfil
      unfold validVersions at hfil2
      rw [hfil2]
      simp

/-- C4 (confirmed): with a non-empty requirer → constraint map, the
version `_get_best_version` picks is a maximum: it is one of the
registry's known versions satisfying every recorded constraint and it
dominates all of them under the version order (so it is never a
minimum-selection nor a first-seen pick); it returns `None` exactly when
no known version satisfies all constraints (including the no-known-version
case), and in that case `_resolve_package` raises `DependencyConflict`
for the package, carrying the recorded constraint map. -/
theorem best_version_is_maximum (repo : Repo) (pkg : String)
    (constraints : List (String × String)) (hne : constraints ≠ []) :
    (∀ b, getBestVersion repo pkg constraints = some b →
        b ∈ validVersions repo pkg constraints
          ∧ ∀ v ∈ validVersions repo pkg constraints, v.leb b = true)
    ∧ (getBestVersion repo pkg constraints = none
        ↔ validVersions repo pkg constraints = [])
    ∧ (∀ fuel c st,
        st.visited.contains pkg = false →
        (match lookupD st.installed pkg with
          | some iv => satisfies (coerce iv) c
          | none => false) = false →
        (lookupD st.required_versions pkg).getD [] = constraints →
        validVersions repo pkg constraints = [] →
        resolvePackage repo (fuel + 1) pkg c st
          = ({ st with visited := st.visited ++ [pkg] },
             some ⟨pkg, constraints⟩)) := by
  refine ⟨fun b hb => getBestVersion_spec repo pkg constraints b hb,
    getBestVersion_none_iff repo pkg constraints hne, ?_⟩
  intro fuel c st h1 h2 h3 h4
  have hnone : getBestVersion repo pkg constraints = none :=
    (getBestVersion_none_iff repo pkg constraints hne).mpr h4
  show resolveStep repo (resolvePackage repo fuel) pkg c st = _
  unfold resolveStep
  rw [h1, h2, h3, hnone]
  simp [h3]

/-- C4 witness: in the concrete registry `repoBest`, version 2.0.0 is the
chosen valid version for `P` under `>=1.0.0` and dominates the also-valid
1.0.0; and resolving the unknown package `ghost` under its recorded
`==3.0.0` constraint raises the conflict carrying that constraint map. -/
theorem best_version_is_maximum_witness :
    ((⟨2, 0, 0⟩ : Version) ∈ validVersions repoBest "P" [("root", ">=1.0.0")]
      ∧ Version.leb ⟨1, 0, 0⟩ ⟨2, 0, 0⟩ = true)
    ∧ resolvePackage repoBest 1 "ghost" "==3.0.0" stConflict
        = ({ stConflict with visited := ["ghost"] },
           some ⟨"ghost", [("root", "==3.0.0")]⟩) := by
  have h := best_version_is_maximum repoBest "P" [("root", ">=1.0.0")]
    (by decide)
  have hg := best_version_is_maximum repoBest "ghost" [("root", "==3.0.0")]
    (by decide)
  obtain ⟨hmem, hall⟩ := h.1 ⟨2, 0, 0⟩ (by decide)
  exact ⟨⟨hmem, hall ⟨1, 0, 0⟩ (by decide)⟩,
    hg.2.2 0 "==3.0.0" stConflict (by decide) (by decide) (by decide) (by decide)⟩

/-- The search loop's per-entry test agrees with the spec's match
predicate once the entry key is the package's name.  The only textual
difference — the loop skips an empty description (Python truthiness)
where the spec's union does not — is absorbed by the name clause: a query
contained in the empty string is itself empty, and the empty query is
contained in every name. -/
theorem entry_test_iff_specMatch (q : String) (p : Package) :
    ((strContains (strToLower p.name) (strToLower q) ||
        (match p.description with
         | some d => !(d == "") && strContains (strToLower d) (strToLower q)
         | none => false) ||
        p.keywords.any (fun k => strContains (strToLower k) (strToLower q)))
      = true)
    ↔ specMatch q p := by
  constructor
  · intro h
    simp only [Bool.or_eq_true] at h
    rcases h with (h | h) | h
    · exact Or.inl h
    · cases hd : p.description with
      | none => rw [hd] at h; simp at h
      | some d =>
        rw [hd] at h
        rw [Bool.and_eq_true] at h
        exact Or.inr (Or.inl ⟨d, hd, h.2⟩)
    · rw [List.any_eq_true] at h
      obtain ⟨k, hk, hkc⟩ := h
      exact Or.inr (Or.inr ⟨k, hk, hkc⟩)
  · intro h
    simp only [Bool.or_eq_true]
    rcases h with h | ⟨d, hd, hc⟩ | ⟨k, hk, hkc⟩
    · exact Or.inl (Or.inl h)
    · by_cases hde : d = ""
      · subst hde
        have hq : (strToLower q).data = [] := strContains_empty_hay hc
        exact Or.inl (Or.inl (strContains_of_nil hq _))
      · refine Or.inl (Or.inr ?_)
        rw [hd]
        rw [Bool.and_eq_true]
        exact ⟨by simp [hde], hc⟩
    · exact Or.inr (List.any_eq_true.mpr ⟨k, hk, hkc⟩)

/-- Membership in the search result is exactly the spec's union of the
three case-insensitive substring matches. -/
theorem searchPure_mem_iff (packages : List (String × Package)) (q : String)
    (hinv : ∀ e ∈ packages, e.1 = e.2.name) (p : Package) :
    p ∈ searchPure packages q ↔ ∃ n, (n, p) ∈ packages ∧ specMatch q p := by
  unfold searchPure
  dsimp only
  rw [List.mem_map]
  constructor
  · rintro ⟨e, he, rfl⟩
    rw [List.mem_filter] at he
    obtain ⟨hmem, htest⟩ := he
    have hn := hinv e hmem
    rw [hn] at htest
    exact ⟨e.1, by simpa using hmem, (entry_test_iff_specMatch q e.2).mp htest⟩
  · rintro ⟨n, hmem, hspec⟩
    refine ⟨(n, p), ?_, rfl⟩
    rw [List.mem_filter]
    refine ⟨hmem, ?_⟩
    have hn : n = p.name := hinv (n, p) hmem
    show (strContains (strToLower n) (strToLower q) ||
        (match p.description with
         | some d => !(d == "") && strContains (strToLower d) (strToLower q)
         | none => false) ||
        p.keywords.any (fun k => strContains (strToLower k) (strToLower q)))
      = true
    rw [hn]
    exact (entry_test_iff_specMatch q p).mpr hspec

/-- Under the registry's map invariants — unique keys, each key equal to
its package's name — a package value occurs at most once among the map's
values. -/
theorem snd_count_le_one (packages : List (String × Package)) (p : Package)
    (hnd : (packages.map Prod.fst).Nodup)
    (hinv : ∀ e ∈ packages, e.1 = e.2.name) :
    (packages.map Prod.snd).count p ≤ 1 := by
  induction packages with
  | nil => simp
  | cons e rest ih =>
    rw [List.map_cons] at hnd
    obtain ⟨hhead, htail⟩ := List.nodup_cons.mp hnd
    have hinv' : ∀ x ∈ rest, x.1 = x.2.name :=
      fun x hx => hinv x (List.mem_cons_of_mem e hx)
    rw [List.map_cons, List.count_cons]
    simp only [beq_iff_eq]
    by_cases hep : e.2 = p
    · have hz : (rest.map Prod.snd).count p = 0 := by
        rw [List.count_eq_zero]
        intro hmem
        rw [List.mem_map] at hmem
        obtain ⟨x, hx, hxp⟩ := hmem
        have h1 : x.1 = p.name := by rw [hinv' x hx, hxp]
        have h2 : e.1 = p.name := by
          rw [hinv e (List.mem_cons_self e rest), hep]
        apply hhead
        rw [h2, ← h1]
        exact List.mem_map_of_mem Prod.fst hx
      rw [hz, if_pos hep]
    · rw [if_neg hep]
      have hle := ih htail hinv'
      omega

/-- C7 (confirmed): a package is in the search result exactly when the
lower-cased query occurs, case-insensitively, in its name, its
description, or one of its keywords — the union of the three match sets —
and, given the package map's key invariants, each matching package
appears in the result at most once. -/
theorem search_is_case_insensitive_union (st : RegState) (q : String)
    (p : Package) (hinv : ∀ e ∈ st.packages, e.1 = e.2.name) :
    (p ∈ searchPure st.packages q
      ↔ ∃ n, (n, p) ∈ st.packages ∧ specMatch q p)
    ∧ ((st.packages.map Prod.fst).Nodup
        → (searchPure st.packages q).count p ≤ 1) := by
  refine ⟨searchPure_mem_iff st.packages q hinv p, ?_⟩
  intro hnd
  have hsub : (searchPure st.packages q).Sublist (st.packages.map Prod.snd) := by
    unfold searchPure
    dsimp only
    exact List.Sublist.map _ (List.filter_sublist _)
  exact le_trans (hsub.count_le p) (snd_count_le_one st.packages p hnd hinv)

/-- C7 witness: in the concrete two-package registry, `llamatext` is found
by the query `llama` (via its name) and occurs exactly once in the
result. -/
theorem search_is_case_insensitive_union_witness :
    pkgLlama ∈ searchPure regTwo.packages "llama"
    ∧ (searchPure regTwo.packages "llama").count pkgLlama ≤ 1 :=
  ⟨((search_is_case_insensitive_union regTwo "llama" pkgLlama (by decide)).1).mpr
      ⟨"llamatext", by decide, Or.inl (by decide)⟩,
   (search_is_case_insensitive_union regTwo "llama" pkgLlama (by decide)).2
      (by decide)⟩

end LlamaPackages
